import Mathlib

/-!
Shallow embedding of the fasterthefuck rule-evaluation engine
(src/types.rs, src/corrector.rs, src/rules/builders/{simple,regex,fuzzy}.rs)
together with proofs about the engine's ordering, deduplication,
gating and builder-validation behaviour.

Machine integers (i32 priorities, i64 fuzzy scores) are modelled as `Int`;
no claim under consideration depends on wrap-around behaviour.
Text is modelled as Lean `String`; Rust's `str::replace` and
`str::contains` are re-implemented on the underlying character lists so
that their semantics (including the empty-pattern corner cases) follow
the Rust standard library rather than Lean's own string primitives.
-/

/-- Command (src/types.rs): the failing shell invocation. -/
structure Command where
  script : String
  output : String
  exit_code : Int
deriving DecidableEq, Repr

/-- CorrectedCommand (src/types.rs): one proposed fix with a priority. -/
structure CorrectedCommand where
  script : String
  priority : Int
  side_effect : Option String
deriving DecidableEq, Repr

/-- The `PartialEq` instance of CorrectedCommand (src/types.rs, lines 79-85):
equality compares `script` and `side_effect` only, ignoring `priority`. -/
def ccEq (a b : CorrectedCommand) : Bool :=
  a.script == b.script && a.side_effect == b.side_effect

/-- The `Ord` instance of CorrectedCommand (src/types.rs, lines 93-97):
ordering is by `priority` alone.  `ccLe` is the corresponding
less-or-equal comparator used by the sort. -/
def ccLe (a b : CorrectedCommand) : Bool :=
  decide (a.priority ≤ b.priority)

/-- A trait object implementing `Rule` (src/types.rs, lines 100-124).
The overridable methods become record fields; the fields' default values
are the trait's default method bodies.  The trait method `matches` is a
reserved word in Lean, so the field is called `rmatches`. -/
structure Rule where
  name : String
  rmatches : Command → Bool
  get_new_commands : Command → List String
  enabled_by_default : Bool := true
  priority : Int := 1000
  requires_output : Bool := true

/-- Rule::get_corrected_commands (src/types.rs, lines 126-134): the i-th
(0-based) suggested script becomes a CorrectedCommand with priority
`(i+1) * rule.priority()` and no side effect. -/
def Rule.get_corrected_commands (r : Rule) (c : Command) : List CorrectedCommand :=
  (r.get_new_commands c).enum.map
    (fun p => { script := p.2, priority := ((p.1 : Int) + 1) * r.priority, side_effect := none })

/-- RuleRegistry (src/corrector.rs, lines 7-9). -/
structure RuleRegistry where
  rules : List Rule

/-- RuleRegistry::enabled_rules (src/corrector.rs, lines 33-38). -/
def RuleRegistry.enabled_rules (reg : RuleRegistry) : List Rule :=
  reg.rules.filter (fun r => r.enabled_by_default)

/-- The filter closure inside Corrector::get_corrections
(src/corrector.rs, lines 72-78): a rule is kept when it is not gated by
the empty-output check and its `matches` returns true. -/
def keepRule (c : Command) (r : Rule) : Bool :=
  if r.requires_output && c.output.isEmpty then false else r.rmatches c

/-- The parallel filter/flat_map/collect stage of Corrector::get_corrections
(src/corrector.rs, lines 68-80).  Rayon's indexed collect reassembles
worker results in the input order, so the stage is semantically the
sequential filter-then-bind over the registry's rules. -/
def candidatesOf (reg : RuleRegistry) (c : Command) : List CorrectedCommand :=
  (reg.rules.filter (fun r => keepRule c r)).flatMap (fun r => r.get_corrected_commands c)

/-- Helper for `dedupRust`: keeps elements of the tail that are not equal
to the most recently kept element. -/
def dedupRustGo (eq : α → α → Bool) (last : α) : List α → List α
  | [] => []
  | b :: rest => if eq last b then dedupRustGo eq last rest else b :: dedupRustGo eq b rest

/-- Rust's `Vec::dedup` (used in src/corrector.rs, line 84): removes
elements equal to the last kept element, i.e. collapses consecutive runs
of `eq`-equal elements keeping the first element of each run. -/
def dedupRust (eq : α → α → Bool) : List α → List α
  | [] => []
  | a :: rest => a :: dedupRustGo eq a rest

/-- Corrector (src/corrector.rs, lines 48-50). -/
structure Corrector where
  registry : RuleRegistry

/-- Corrector::rules (src/corrector.rs, lines 58-61). -/
def Corrector.rules (co : Corrector) : List Rule :=
  co.registry.enabled_rules

/-- Corrector::get_corrections (src/corrector.rs, lines 66-87):
parallel filter/flat_map over all registered rules, then a stable sort
by priority (`Vec::sort` via the `Ord` instance), then `Vec::dedup`
under the `(script, side_effect)` equality. -/
def Corrector.get_corrections (co : Corrector) (c : Command) : List CorrectedCommand :=
  dedupRust ccEq ((candidatesOf co.registry c).mergeSort ccLe)

/-- Corrector::get_best_correction (src/corrector.rs, lines 90-92). -/
def Corrector.get_best_correction (co : Corrector) (c : Command) : Option CorrectedCommand :=
  (co.get_corrections c).head?

theorem ccLe_trans (a b c : CorrectedCommand) (h1 : ccLe a b) (h2 : ccLe b c) : ccLe a c := by
  simp only [ccLe, decide_eq_true_eq] at *
  omega

theorem ccLe_total (a b : CorrectedCommand) : ccLe a b || ccLe b a := by
  simp only [ccLe, Bool.or_eq_true, decide_eq_true_eq]
  omega

theorem get_corrections_of_sorted (co : Corrector) (c : Command)
    (h : (candidatesOf co.registry c).Pairwise (fun a b => ccLe a b = true)) :
    co.get_corrections c = dedupRust ccEq (candidatesOf co.registry c) := by
  unfold Corrector.get_corrections
  rw [List.mergeSort_of_sorted h]

/-- A Boolean check that no two adjacent elements of a list are equal
under `eq`.  Used to state what `Vec::dedup` does and does not remove. -/
def noAdjDupB (eq : α → α → Bool) : List α → Bool
  | [] => true
  | [_] => true
  | a :: b :: rest => !eq a b && noAdjDupB eq (b :: rest)

theorem noAdjDupB_go (eq : α → α → Bool) (l : List α) :
    ∀ a, noAdjDupB eq (a :: dedupRustGo eq a l) = true := by
  induction l with
  | nil => intro a; rfl
  | cons b rest ih =>
    intro a
    cases h : eq a b with
    | true => simpa [dedupRustGo, h] using ih a
    | false => simpa [dedupRustGo, noAdjDupB, h] using ih b

theorem noAdjDupB_dedupRust (eq : α → α → Bool) (l : List α) :
    noAdjDupB eq (dedupRust eq l) = true := by
  cases l with
  | nil => rfl
  | cons a rest => exact noAdjDupB_go eq rest a

theorem dedupRustGo_sublist (eq : α → α → Bool) (l : List α) :
    ∀ a, (dedupRustGo eq a l).Sublist l := by
  induction l with
  | nil => intro a; exact List.Sublist.refl []
  | cons b rest ih =>
    intro a
    cases h : eq a b with
    | true =>
      simp only [dedupRustGo, h, if_true]
      exact (ih a).trans (List.sublist_cons_self b rest)
    | false =>
      simp only [dedupRustGo, h, Bool.false_eq_true, if_false]
      exact (ih b).cons₂ b

theorem dedupRust_sublist (eq : α → α → Bool) (l : List α) :
    (dedupRust eq l).Sublist l := by
  cases l with
  | nil => exact List.Sublist.refl []
  | cons a rest => exact (dedupRustGo_sublist eq rest a).cons₂ a

theorem filter_priority_pairwise (l : List CorrectedCommand) (p : Int) :
    (l.filter (fun cc => cc.priority == p)).Pairwise (fun a b => ccLe a b = true) := by
  apply List.pairwise_of_forall_mem_list
  intro a ha b hb
  have ha' := List.of_mem_filter ha
  have hb' := List.of_mem_filter hb
  simp only [beq_iff_eq] at ha' hb'
  simp only [ccLe, decide_eq_true_eq, ha', hb', le_refl]

theorem mergeSort_filter_priority (l : List CorrectedCommand) (p : Int) :
    (l.mergeSort ccLe).filter (fun cc => cc.priority == p)
      = l.filter (fun cc => cc.priority == p) := by
  have hsub : (l.filter (fun cc => cc.priority == p)).Sublist (l.mergeSort ccLe) :=
    List.sublist_mergeSort ccLe_trans ccLe_total (filter_priority_pairwise l p)
      (List.filter_sublist l)
  have hsub2 : ((l.filter (fun cc => cc.priority == p)).filter (fun cc => cc.priority == p)).Sublist
      ((l.mergeSort ccLe).filter (fun cc => cc.priority == p)) :=
    hsub.filter _
  rw [List.filter_filter] at hsub2
  have hidem : (fun cc : CorrectedCommand => (cc.priority == p) && (cc.priority == p))
      = (fun cc => cc.priority == p) := by
    funext cc
    cases cc.priority == p <;> rfl
  rw [hidem] at hsub2
  have hperm : ((l.mergeSort ccLe).filter (fun cc => cc.priority == p)).Perm
      (l.filter (fun cc => cc.priority == p)) :=
    (List.mergeSort_perm l ccLe).filter _
  exact (hsub2.eq_of_length hperm.length_eq.symm).symm

/-- C6: the sequence returned by Corrector::get_corrections is sorted
ascending by priority (every pair, hence every adjacent pair, satisfies
`result[i].priority <= result[i+1].priority`), and the sort step is
stable: for every priority value, sorting preserves the exact
subsequence of tied candidates in the order they were produced. -/
theorem get_corrections_sorted_stable (co : Corrector) (c : Command) :
    (co.get_corrections c).Pairwise (fun a b => a.priority ≤ b.priority) ∧
    ∀ p : Int,
      ((candidatesOf co.registry c).mergeSort ccLe).filter (fun cc => cc.priority == p)
        = (candidatesOf co.registry c).filter (fun cc => cc.priority == p) := by
  constructor
  · have hs : ((candidatesOf co.registry c).mergeSort ccLe).Pairwise
        (fun a b => ccLe a b = true) :=
      List.sorted_mergeSort ccLe_trans ccLe_total _
    have hp := List.Pairwise.sublist
      (dedupRust_sublist ccEq ((candidatesOf co.registry c).mergeSort ccLe)) hs
    exact hp.imp (fun h => by simpa [ccLe, decide_eq_true_eq] using h)
  · intro p
    exact mergeSort_filter_priority _ p

/-- Concrete rule proposing script "A" at base priority 100; used to
exhibit a surviving duplicate in the corrector output. -/
def dupRuleA : Rule :=
  { name := "dup_a", rmatches := fun _ => true, get_new_commands := fun _ => ["A"],
    priority := 100 }

/-- Concrete rule proposing script "B" at base priority 150. -/
def dupRuleB : Rule :=
  { name := "dup_b", rmatches := fun _ => true, get_new_commands := fun _ => ["B"],
    priority := 150 }

/-- Concrete rule proposing script "A" again, at base priority 200. -/
def dupRuleA2 : Rule :=
  { name := "dup_a2", rmatches := fun _ => true, get_new_commands := fun _ => ["A"],
    priority := 200 }

/-- A command with nonempty output, so no rule is gated. -/
def dupCommand : Command := { script := "x", output := "err", exit_code := 1 }

/-- Corrector holding the three duplicate-producing rules. -/
def dupCorrector : Corrector :=
  { registry := { rules := [dupRuleA, dupRuleB, dupRuleA2] } }

theorem dup_candidates_eval :
    candidatesOf dupCorrector.registry dupCommand
      = [⟨"A", 100, none⟩, ⟨"B", 150, none⟩, ⟨"A", 200, none⟩] := rfl

/-- C1 counterexample: with rules proposing "A" (priority 100),
"B" (priority 150) and "A" (priority 200), the sorted candidate list is
A,B,A; `Vec::dedup` only removes consecutive duplicates, so both copies
of "A" survive and the result does contain two elements with the same
`(script, side_effect)` pair, contrary to the claimed invariant. -/
theorem get_corrections_duplicate_survives :
    (dupCorrector.get_corrections dupCommand).map (fun cc => (cc.script, cc.side_effect))
        = [("A", none), ("B", none), ("A", none)] ∧
      ¬ (dupCorrector.get_corrections dupCommand).Pairwise
          (fun a b => ¬ (a.script = b.script ∧ a.side_effect = b.side_effect)) := by
  have hs : dupCorrector.get_corrections dupCommand
      = dedupRust ccEq (candidatesOf dupCorrector.registry dupCommand) :=
    get_corrections_of_sorted _ _ (by rw [dup_candidates_eval]; decide)
  rw [hs, dup_candidates_eval]
  exact ⟨by decide, by decide⟩

/-- C1 amended: after the priority sort, the dedup step removes only
consecutive duplicates under the `(script, side_effect)` equality: no
two adjacent elements of the result are equal under that equality, and
the result is a subsequence of the sorted candidate list (each removed
element was equal to the element kept immediately before its run).
Duplicates separated by an element of strictly intermediate priority
can survive. -/
theorem get_corrections_dedup_adjacent_only (co : Corrector) (c : Command) :
    noAdjDupB ccEq (co.get_corrections c) = true ∧
    (co.get_corrections c).Sublist ((candidatesOf co.registry c).mergeSort ccLe) :=
  ⟨noAdjDupB_dedupRust ccEq _, dedupRust_sublist ccEq _⟩

/-- C3: the i-th (0-based) string returned by get_new_commands yields,
via the derived get_corrected_commands, a CorrectedCommand with the same
script, priority `(i+1) * rule.priority()` and no side effect, in the
same order; in particular a rule with priority 100 returning two
candidates yields priorities 100 and 200 in that order. -/
theorem get_corrected_commands_priorities (r : Rule) (c : Command) :
    (∀ i : Nat, (r.get_corrected_commands c)[i]?
        = ((r.get_new_commands c)[i]?).map
            (fun s => { script := s, priority := ((i : Int) + 1) * r.priority,
                        side_effect := none })) ∧
    (r.priority = 100 → (r.get_new_commands c).length = 2 →
      (r.get_corrected_commands c).map (fun cc => cc.priority) = [100, 200]) := by
  constructor
  · intro i
    unfold Rule.get_corrected_commands
    rw [List.getElem?_map, List.getElem?_enum]
    cases (r.get_new_commands c)[i]? <;> rfl
  · intro hp hl
    obtain ⟨a, b, hab⟩ := List.length_eq_two.mp hl
    unfold Rule.get_corrected_commands
    rw [hab, hp]
    norm_num [List.enum, List.enumFrom]

/-- A rule with priority 100 whose get_new_commands returns exactly two
candidate scripts; instantiates the priority-scaling property. -/
def twoSuggestRule : Rule :=
  { name := "two", rmatches := fun _ => true, get_new_commands := fun _ => ["a", "b"],
    priority := 100 }

/-- Witness for C3 at a concrete rule and command. -/
theorem get_corrected_commands_priorities_witness :
    Rule.priority twoSuggestRule = 100 ∧
    (Rule.get_new_commands twoSuggestRule dupCommand).length = 2 ∧
    (Rule.get_corrected_commands twoSuggestRule dupCommand).map (fun cc => cc.priority)
      = [100, 200] :=
  ⟨rfl, rfl, (get_corrected_commands_priorities twoSuggestRule dupCommand).2 rfl rfl⟩

theorem keepRule_empty_output (c : Command) (h : c.output = "") (r : Rule) :
    keepRule c r = (!r.requires_output && r.rmatches c) := by
  unfold keepRule
  rw [h]
  have he : "".isEmpty = true := rfl
  cases r.requires_output <;> simp [he]

theorem filter_map_gate (rs : List Rule) (c : Command) (f : Rule → Command → Bool)
    (h : c.output = "") :
    (rs.map (fun r => if r.requires_output then { r with rmatches := f r } else r)).filter
        (fun r => keepRule c r)
      = rs.filter (fun r => keepRule c r) := by
  induction rs with
  | nil => rfl
  | cons r rest ih =>
    simp only [List.map_cons, List.filter_cons]
    cases hreq : r.requires_output with
    | false =>
      simp only [hreq, Bool.false_eq_true, if_false]
      rw [ih]
    | true =>
      have he : "".isEmpty = true := rfl
      rw [if_pos (rfl : true = true)]
      have h1 : keepRule c { r with rmatches := f r, requires_output := true } = false := by
        show (if true && c.output.isEmpty then false else f r c) = false
        rw [h]
        simp [he]
      have h2 : keepRule c r = false := by
        unfold keepRule
        rw [h, hreq]
        simp [he]
      rw [h1, h2]
      simp only [Bool.false_eq_true, if_false]
      exact ih

/-- C4: for a command whose output is empty, every rule with
requires_output contributes nothing — the result equals the result over
the registry with all output-requiring rules removed — and this happens
before `matches` is consulted: replacing the `matches` method of every
output-requiring rule by an arbitrary function does not change the
result. -/
theorem requires_output_gating (reg : RuleRegistry) (c : Command)
    (f : Rule → Command → Bool) (h : c.output = "") :
    Corrector.get_corrections ⟨reg⟩ c
        = Corrector.get_corrections ⟨⟨reg.rules.filter (fun r => ! r.requires_output)⟩⟩ c ∧
      Corrector.get_corrections
          ⟨⟨reg.rules.map (fun r => if r.requires_output then { r with rmatches := f r } else r)⟩⟩ c
        = Corrector.get_corrections ⟨reg⟩ c := by
  constructor
  · suffices hflt : reg.rules.filter (fun r => keepRule c r)
        = (reg.rules.filter (fun r => ! r.requires_output)).filter (fun r => keepRule c r) by
      simp only [Corrector.get_corrections, candidatesOf]
      rw [← hflt]
    rw [List.filter_filter]
    apply List.filter_congr
    intro r _
    rw [keepRule_empty_output c h r]
    cases r.requires_output <;> cases r.rmatches c <;> rfl
  · simp only [Corrector.get_corrections, candidatesOf]
    rw [filter_map_gate reg.rules c f h]

/-- An output-requiring rule whose matches method returns true. -/
def gateRule : Rule :=
  { name := "gate", rmatches := fun _ => true, get_new_commands := fun _ => ["fix"] }

/-- A command whose output is the empty string. -/
def gateCommand : Command := { script := "s", output := "", exit_code := 1 }

/-- Witness for C4 at a concrete registry and empty-output command. -/
theorem requires_output_gating_witness :
    Command.output gateCommand = "" ∧
    Corrector.get_corrections ⟨⟨[gateRule]⟩⟩ gateCommand
      = Corrector.get_corrections ⟨⟨([gateRule].filter (fun r => ! r.requires_output))⟩⟩ gateCommand :=
  ⟨rfl, (requires_output_gating ⟨[gateRule]⟩ gateCommand (fun _ _ => false) rfl).1⟩

/-- The filter-and-flatten stage executed by parallel workers: the rule
list is split into contiguous chunks (rayon splits an indexed iterator
into contiguous segments), each worker filters and flattens its chunk,
and collect concatenates the per-chunk results in chunk order. -/
def scheduledCandidates (chunks : List (List Rule)) (c : Command) : List CorrectedCommand :=
  (chunks.map
    (fun chunk =>
      (chunk.filter (fun r => keepRule c r)).flatMap (fun r => r.get_corrected_commands c))).flatten

/-- Corrector::get_corrections executed under an explicit chunk schedule:
the scheduled filter/flatten stage followed by the same sort and dedup. -/
def scheduledCorrections (chunks : List (List Rule)) (c : Command) : List CorrectedCommand :=
  dedupRust ccEq ((scheduledCandidates chunks c).mergeSort ccLe)

theorem scheduledCandidates_flatten (chunks : List (List Rule)) (c : Command) :
    scheduledCandidates chunks c
      = (chunks.flatten.filter (fun r => keepRule c r)).flatMap
          (fun r => r.get_corrected_commands c) := by
  induction chunks with
  | nil => rfl
  | cons ch rest ih =>
    simp only [scheduledCandidates, List.map_cons, List.flatten_cons, List.filter_append,
      List.flatMap_append]
    rw [← ih]
    rfl

/-- C5: evaluation is deterministic and independent of how the parallel
filter-and-flatten stage is scheduled: for every split of the registry's
rule list into contiguous worker chunks, running the pipeline under that
schedule returns exactly the sequence produced by the sequential
Corrector::get_corrections. -/
theorem get_corrections_schedule_independent (chunks : List (List Rule))
    (reg : RuleRegistry) (c : Command) (h : chunks.flatten = reg.rules) :
    scheduledCorrections chunks c = Corrector.get_corrections ⟨reg⟩ c := by
  unfold scheduledCorrections Corrector.get_corrections
  rw [scheduledCandidates_flatten, h]
  rfl

/-- Witness for C5: a two-worker schedule of the three-rule registry. -/
theorem get_corrections_schedule_independent_witness :
    ([[dupRuleA], [dupRuleB, dupRuleA2]] : List (List Rule)).flatten
        = dupCorrector.registry.rules ∧
      scheduledCorrections [[dupRuleA], [dupRuleB, dupRuleA2]] dupCommand
        = dupCorrector.get_corrections dupCommand :=
  ⟨rfl, get_corrections_schedule_independent [[dupRuleA], [dupRuleB, dupRuleA2]]
    dupCorrector.registry dupCommand rfl⟩

theorem candidatesOf_map_flag (rs : List Rule) (c : Command) (f : Rule → Bool) :
    candidatesOf ⟨rs.map (fun r => { r with enabled_by_default := f r })⟩ c
      = candidatesOf ⟨rs⟩ c := by
  induction rs with
  | nil => rfl
  | cons r rest ih =>
    simp only [candidatesOf, List.map_cons, List.filter_cons] at *
    have h1 : keepRule c { r with enabled_by_default := f r } = keepRule c r := rfl
    rw [h1]
    cases keepRule c r
    · simpa using ih
    · simp only [if_true]
      rw [List.flatMap_cons, List.flatMap_cons]
      have h2 : Rule.get_corrected_commands { r with enabled_by_default := f r } c
          = r.get_corrected_commands c := rfl
      rw [h2, ih]

/-- A rule with enabled_by_default false that matches and proposes a
correction. -/
def disabledRule : Rule :=
  { name := "off", rmatches := fun _ => true, get_new_commands := fun _ => ["fix"],
    enabled_by_default := false }

/-- A corrector whose registry holds only the disabled rule. -/
def disabledCorrector : Corrector := { registry := { rules := [disabledRule] } }

/-- C10: Corrector::get_corrections evaluates every registered rule,
including rules whose enabled_by_default is false: the result is
invariant under arbitrary changes of the enabled_by_default flags, while
RuleRegistry::enabled_rules and Corrector::rules list only flag-true
rules; concretely, a matching disabled rule still contributes its
candidate even though Corrector::rules excludes it. -/
theorem disabled_rules_still_evaluated (rs : List Rule) (c : Command) (f : Rule → Bool) :
    Corrector.get_corrections ⟨⟨rs.map (fun r => { r with enabled_by_default := f r })⟩⟩ c
        = Corrector.get_corrections ⟨⟨rs⟩⟩ c ∧
      (∀ r ∈ RuleRegistry.enabled_rules ⟨rs⟩, r.enabled_by_default = true) ∧
      Corrector.rules ⟨⟨rs⟩⟩ = rs.filter (fun r => r.enabled_by_default) ∧
      disabledCorrector.get_corrections dupCommand
          = [{ script := "fix", priority := 1000, side_effect := none }] ∧
      disabledCorrector.rules = [] := by
  refine ⟨?_, ?_, rfl, ?_, rfl⟩
  · unfold Corrector.get_corrections
    rw [candidatesOf_map_flag rs c f]
  · intro r hr
    exact List.of_mem_filter hr
  · rw [get_corrections_of_sorted _ _ (by decide)]
    rfl

/-- Scanning loop of Rust's `str::replace` for a nonempty pattern: at
each position, if the pattern is a prefix, emit the replacement and skip
the pattern; otherwise emit one character and advance.  The fuel starts
at the text length, which suffices since every step consumes at least
one character. -/
def replaceAllGo (find repl : List Char) : Nat → List Char → List Char
  | 0, s => s
  | fuel + 1, s =>
    match s with
    | [] => []
    | ch :: rest =>
      if find.isPrefixOf (ch :: rest) then
        repl ++ replaceAllGo find repl fuel ((ch :: rest).drop find.length)
      else
        ch :: replaceAllGo find repl fuel rest

/-- Rust's `str::replace` (all non-overlapping occurrences, left to
right).  An empty pattern matches at every character boundary including
the end, as in Rust's `match_indices`. -/
def replaceAll (s find repl : String) : String :=
  if find.data.isEmpty then
    ⟨repl.data ++ s.data.flatMap (fun ch => ch :: repl.data)⟩
  else
    ⟨replaceAllGo find.data repl.data s.data.length s.data⟩

/-- Scanning loop of Rust's `str::contains`: the pattern occurs in the
text iff it is a prefix of some suffix. -/
def containsSub (pat : List Char) : List Char → Bool
  | [] => pat.isEmpty
  | ch :: rest => pat.isPrefixOf (ch :: rest) || containsSub pat rest

/-- Rust's `str::contains` for literal string patterns
(used by SimpleRule::matches). -/
def strContains (s pat : String) : Bool :=
  containsSub pat.data s.data

/-- SimpleRuleBuilder (src/rules/builders/simple.rs, lines 6-12). -/
structure SimpleRuleBuilder where
  name : String
  match_cmd : Option String := none
  match_out : Option String := none
  replacement : Option (String × String) := none
  priority : Int := 1000

/-- SimpleRuleBuilder::new (simple.rs, lines 16-24). -/
def SimpleRuleBuilder.new (name : String) : SimpleRuleBuilder :=
  { name := name }

/-- SimpleRuleBuilder::match_command (simple.rs, lines 27-30). -/
def SimpleRuleBuilder.match_command (b : SimpleRuleBuilder) (pattern : String) :
    SimpleRuleBuilder :=
  { b with match_cmd := some pattern }

/-- SimpleRuleBuilder::match_output (simple.rs, lines 33-36). -/
def SimpleRuleBuilder.match_output (b : SimpleRuleBuilder) (pattern : String) :
    SimpleRuleBuilder :=
  { b with match_out := some pattern }

/-- SimpleRule (simple.rs, lines 58-64). -/
structure SimpleRule where
  name : String
  match_cmd : Option String
  match_out : Option String
  replacement : Option (String × String)
  priority : Int

/-- SimpleRuleBuilder::replace (simple.rs, lines 45-54): records the
find/replace pair and produces the rule; this construction cannot fail. -/
def SimpleRuleBuilder.replace (b : SimpleRuleBuilder) (old new : String) : SimpleRule :=
  { name := b.name, match_cmd := b.match_cmd, match_out := b.match_out,
    replacement := some (old, new), priority := b.priority }

/-- SimpleRule::matches (simple.rs, lines 71-85): conjunction of the two
substring tests, each defaulting to true when unset. -/
def SimpleRule.rmatches (r : SimpleRule) (c : Command) : Bool :=
  (match r.match_cmd with
   | some p => strContains c.script p
   | none => true) &&
  (match r.match_out with
   | some p => strContains c.output p
   | none => true)

/-- SimpleRule::get_new_commands (simple.rs, lines 87-93): one candidate
obtained by a global literal replacement in the script. -/
def SimpleRule.get_new_commands (r : SimpleRule) (c : Command) : List String :=
  match r.replacement with
  | some pr => [replaceAll c.script pr.1 pr.2]
  | none => []

/-- C8: a literal rule built with a find/replace pair returns, for every
command, exactly one candidate: the script with every occurrence of the
find text replaced by the replace text; in particular find="X",
replace="Y" on script "aXb" yields exactly ["aYb"], and on "XaXbX"
(multiple occurrences) yields ["YaYbY"]. -/
theorem simple_rule_replace_all (b : SimpleRuleBuilder) (old new : String) (c : Command) :
    (b.replace old new).get_new_commands c = [replaceAll c.script old new] ∧
    ((b.replace old new).get_new_commands c).length = 1 ∧
    ((SimpleRuleBuilder.new "lit").replace "X" "Y").get_new_commands
        { script := "aXb", output := "out", exit_code := 1 } = ["aYb"] ∧
    ((SimpleRuleBuilder.new "lit").replace "X" "Y").get_new_commands
        { script := "XaXbX", output := "out", exit_code := 1 } = ["YaYbY"] :=
  ⟨rfl, rfl, rfl, rfl⟩

/-- Abstract model of a compiled regular expression from the external
`regex` crate: a regex is determined by its `captures` behaviour, which
returns `none` when the pattern does not match and otherwise the list of
capture groups (group 0 is the whole match; a group that did not
participate is `none`).  `Regex::is_match` agrees with `captures` being
some, as guaranteed by the regex crate. -/
structure RegexM where
  captures : String → Option (List (Option String))

/-- Regex::is_match, derived from the captures function. -/
def RegexM.is_match (rx : RegexM) (s : String) : Bool :=
  (rx.captures s).isSome

/-- RegexRule (src/rules/builders/regex.rs, lines 103-109). -/
structure RegexRule where
  name : String
  command_pattern : Option RegexM
  output_pattern : Option RegexM
  replacement_fn : String → List (Option String) → List String
  priority : Int

/-- RegexRule::matches (regex.rs, lines 116-130). -/
def RegexRule.rmatches (r : RegexRule) (c : Command) : Bool :=
  (match r.command_pattern with
   | some pat => pat.is_match c.script
   | none => true) &&
  (match r.output_pattern with
   | some pat => pat.is_match c.output
   | none => true)

/-- RegexRule::get_new_commands (regex.rs, lines 132-147): use the
script pattern's captures of the script when available, otherwise fall
through to the output pattern's captures of the output, otherwise no
candidates.  The replacement function always receives the original
script as its first argument. -/
def RegexRule.get_new_commands (r : RegexRule) (c : Command) : List String :=
  match r.command_pattern.bind (fun pat => pat.captures c.script) with
  | some caps => r.replacement_fn c.script caps
  | none =>
    match r.output_pattern.bind (fun pat => pat.captures c.output) with
    | some caps => r.replacement_fn c.script caps
    | none => []

/-- RegexRuleBuilder (regex.rs, lines 7-13). -/
structure RegexRuleBuilder where
  name : String
  command_pattern : Option RegexM := none
  output_pattern : Option RegexM := none
  replacement_fn : Option (String → List (Option String) → List String) := none
  priority : Int := 1000

/-- RegexRuleBuilder::new (regex.rs, lines 17-25). -/
def RegexRuleBuilder.new (name : String) : RegexRuleBuilder :=
  { name := name }

/-- RegexRuleBuilder::match_command_regex (regex.rs, lines 29-32).
`Regex::new` of the external crate is modelled by the abstract
compilation function `compile`, which returns `none` exactly on
syntactically invalid patterns. -/
def RegexRuleBuilder.match_command_regex (compile : String → Option RegexM)
    (b : RegexRuleBuilder) (pattern : String) : Except String RegexRuleBuilder :=
  match compile pattern with
  | none => .error ("invalid regex: " ++ pattern)
  | some rx => .ok { b with command_pattern := some rx }

/-- RegexRuleBuilder::match_output_regex (regex.rs, lines 36-39). -/
def RegexRuleBuilder.match_output_regex (compile : String → Option RegexM)
    (b : RegexRuleBuilder) (pattern : String) : Except String RegexRuleBuilder :=
  match compile pattern with
  | none => .error ("invalid regex: " ++ pattern)
  | some rx => .ok { b with output_pattern := some rx }

/-- RegexRuleBuilder::replace_with (regex.rs, lines 49-55). -/
def RegexRuleBuilder.replace_with (b : RegexRuleBuilder)
    (f : String → List (Option String) → List String) : RegexRuleBuilder :=
  { b with replacement_fn := some f }

/-- RegexRuleBuilder::build (regex.rs, lines 58-75). -/
def RegexRuleBuilder.build (b : RegexRuleBuilder) : Except String RegexRule :=
  if b.command_pattern.isNone && b.output_pattern.isNone then
    .error "RegexRuleBuilder: At least one pattern (command or output) must be set"
  else
    match b.replacement_fn with
    | none => .error "RegexRuleBuilder: replacement_fn must be set"
    | some f =>
      .ok { name := b.name, command_pattern := b.command_pattern,
            output_pattern := b.output_pattern, replacement_fn := f,
            priority := b.priority }

/-- The capture-substitution loop inside replace_simple (regex.rs, lines
84-90): for each index i in order, when group i matched, replace every
occurrence of "$i" in the accumulated result with the group's text. -/
def substCapturesFrom (i : Nat) (caps : List (Option String)) (acc : String) : String :=
  match caps with
  | [] => acc
  | none :: rest => substCapturesFrom (i + 1) rest acc
  | some m :: rest => substCapturesFrom (i + 1) rest (replaceAll acc ("$" ++ toString i) m)

/-- Substitution of all positional placeholders into the template. -/
def substCaptures (caps : List (Option String)) (template : String) : String :=
  substCapturesFrom 0 caps template

/-- The replacement closure created by replace_simple (regex.rs, lines
81-97): substitute the capture groups into the template; if the result
is unchanged, fall back to the original script as sole candidate. -/
def simpleReplacement (template : String) (original : String)
    (caps : List (Option String)) : List String :=
  let result := substCaptures caps template
  if result = template then [original] else [result]

/-- RegexRuleBuilder::replace_simple (regex.rs, lines 79-99). -/
def RegexRuleBuilder.replace_simple (b : RegexRuleBuilder) (template : String) :
    Except String RegexRule :=
  (b.replace_with (simpleReplacement template)).build

/-- Abstract compiled form of the literal pattern "Permission denied",
faithful to the regex crate on the two texts it is applied to below:
it matches the output "Permission denied" with group 0 equal to the
whole match and does not match "apt update". -/
def pdRegex : RegexM :=
  ⟨fun s => if s = "Permission denied" then some [some "Permission denied"] else none⟩

/-- Builder with only an output pattern, as in the repository's
permission_denied example. -/
def pdBuilder : RegexRuleBuilder :=
  { name := "permission_denied", output_pattern := some pdRegex }

/-- The rule produced by `pdBuilder.replace_simple "sudo $0"`. -/
def pdRule : RegexRule :=
  { name := "permission_denied", command_pattern := none, output_pattern := some pdRegex,
    replacement_fn := simpleReplacement "sudo $0", priority := 1000 }

/-- C2 counterexample: a replace_simple rule with only an output pattern
substitutes $0 using the OUTPUT pattern's capture group, yielding
"sudo Permission denied" — the placeholders are not restricted to the
script pattern's capture groups.  Under the claimed reading (script
captures only) no substitution source would exist, the template would be
unchanged, and the fallback would return the original script
["apt update"] instead. -/
theorem replace_simple_output_captures :
    pdBuilder.replace_simple "sudo $0" = .ok pdRule ∧
    pdRule.get_new_commands
        { script := "apt update", output := "Permission denied", exit_code := 1 }
      = ["sudo Permission denied"] ∧
    (["sudo Permission denied"] : List String) ≠ ["apt update"] :=
  ⟨rfl, rfl, by decide⟩

/-- C2 amended: for every rule built via replace_simple, the positional
placeholders are substituted using the capture groups of the script
pattern when one is set and matches the script, and otherwise the
capture groups of the output pattern applied to the command's output;
whenever substitution leaves the template unchanged, the rule returns
exactly one candidate equal to the original, unmodified script. -/
theorem replace_simple_spec (b : RegexRuleBuilder) (template : String) (r : RegexRule)
    (c : Command) (h : b.replace_simple template = .ok r) :
    r.get_new_commands c
      = (match b.command_pattern.bind (fun pat => pat.captures c.script) with
         | some caps =>
           if substCaptures caps template = template then [c.script]
           else [substCaptures caps template]
         | none =>
           match b.output_pattern.bind (fun pat => pat.captures c.output) with
           | some caps =>
             if substCaptures caps template = template then [c.script]
             else [substCaptures caps template]
           | none => []) := by
  unfold RegexRuleBuilder.replace_simple RegexRuleBuilder.replace_with
    RegexRuleBuilder.build at h
  by_cases hc : (b.command_pattern.isNone && b.output_pattern.isNone) = true
  · rw [if_pos hc] at h
    exact absurd h (by simp)
  · rw [if_neg hc] at h
    simp only [Except.ok.injEq] at h
    subst h
    unfold RegexRule.get_new_commands
    cases b.command_pattern.bind (fun pat => pat.captures c.script) with
    | some caps => simp [simpleReplacement]
    | none =>
      cases b.output_pattern.bind (fun pat => pat.captures c.output) with
      | some caps => simp [simpleReplacement]
      | none => rfl

/-- Witness for the amended C2 at the concrete output-pattern rule. -/
theorem replace_simple_spec_witness :
    pdRule.get_new_commands
        { script := "apt update", output := "Permission denied", exit_code := 1 }
      = (match pdBuilder.command_pattern.bind (fun pat => pat.captures "apt update") with
         | some caps =>
           if substCaptures caps "sudo $0" = "sudo $0" then ["apt update"]
           else [substCaptures caps "sudo $0"]
         | none =>
           match pdBuilder.output_pattern.bind (fun pat => pat.captures "Permission denied") with
           | some caps =>
             if substCaptures caps "sudo $0" = "sudo $0" then ["apt update"]
             else [substCaptures caps "sudo $0"]
           | none => []) :=
  replace_simple_spec pdBuilder "sudo $0" pdRule
    { script := "apt update", output := "Permission denied", exit_code := 1 } rfl

/-- FuzzyRuleBuilder (src/rules/builders/fuzzy.rs, lines 11-18), with
the default threshold 20 and priority 1000 set in new (lines 22-31). -/
structure FuzzyRuleBuilder where
  name : String
  command_pattern : Option String := none
  output_pattern : Option String := none
  replacement : Option String := none
  threshold : Int := 20
  priority : Int := 1000

/-- FuzzyRuleBuilder::threshold setter (fuzzy.rs, lines 47-50): clamps
the requested threshold to [0, 100].  Named set_threshold because the
field projection already uses the source name. -/
def FuzzyRuleBuilder.set_threshold (b : FuzzyRuleBuilder) (t : Int) : FuzzyRuleBuilder :=
  { b with threshold := min (max t 0) 100 }

/-- FuzzyRule (fuzzy.rs, lines 87-94). -/
structure FuzzyRule where
  name : String
  command_pattern : Option String
  output_pattern : Option String
  replacement : String
  threshold : Int
  priority : Int

/-- FuzzyRuleBuilder::build (fuzzy.rs, lines 65-83). -/
def FuzzyRuleBuilder.build (b : FuzzyRuleBuilder) : Except String FuzzyRule :=
  if b.command_pattern.isNone && b.output_pattern.isNone then
    .error "FuzzyRuleBuilder: At least one pattern (command or output) must be set"
  else
    match b.replacement with
    | none => .error "FuzzyRuleBuilder: replacement must be set"
    | some repl =>
      .ok { name := b.name, command_pattern := b.command_pattern,
            output_pattern := b.output_pattern, replacement := repl,
            threshold := b.threshold, priority := b.priority }

/-- FuzzyRule::fuzzy_matches (fuzzy.rs, lines 96-108).  The external
SkimMatcherV2 subsequence-alignment scorer is modelled abstractly as a
function from (text, pattern) to an optional i64 score; the rule matches
when a score exists and strictly exceeds the threshold. -/
def FuzzyRule.fuzzy_matches (score : String → String → Option Int) (r : FuzzyRule)
    (text pattern : String) : Bool :=
  match score text pattern with
  | some s => decide (s > r.threshold)
  | none => false

/-- FuzzyRule::matches (fuzzy.rs, lines 115-129): conjunction of the
fuzzy tests on the script and output, each defaulting to true when the
corresponding pattern is unset. -/
def FuzzyRule.rmatches (score : String → String → Option Int) (r : FuzzyRule)
    (c : Command) : Bool :=
  (match r.command_pattern with
   | some p => r.fuzzy_matches score c.script p
   | none => true) &&
  (match r.output_pattern with
   | some p => r.fuzzy_matches score c.output p
   | none => true)

/-- FuzzyRule::get_new_commands (fuzzy.rs, lines 131-133): always the
single fixed replacement. -/
def FuzzyRule.get_new_commands (r : FuzzyRule) (_c : Command) : List String :=
  [r.replacement]

theorem fuzzy_matches_antitone (score : String → String → Option Int) (r : FuzzyRule)
    (t1 t2 : Int) (hle : t1 ≤ t2) (text pattern : String)
    (h : FuzzyRule.fuzzy_matches score { r with threshold := t2 } text pattern = true) :
    FuzzyRule.fuzzy_matches score { r with threshold := t1 } text pattern = true := by
  unfold FuzzyRule.fuzzy_matches at *
  cases hsc : score text pattern with
  | none => rw [hsc] at h; exact absurd h (by simp)
  | some s =>
    rw [hsc] at h
    have h' : decide (s > t2) = true := h
    show decide (s > t1) = true
    simp only [decide_eq_true_eq] at h' ⊢
    omega

/-- C9: fuzzy-rule matching is antitone in the threshold: for a fixed
scorer, rule configuration and command, if the rule with threshold t2 >
t1 matches, then the same rule with threshold t1 also matches — raising
the threshold can only remove matches. -/
theorem fuzzy_threshold_antitone (score : String → String → Option Int) (r : FuzzyRule)
    (c : Command) (t1 t2 : Int) (hlt : t1 < t2)
    (hm : FuzzyRule.rmatches score { r with threshold := t2 } c = true) :
    FuzzyRule.rmatches score { r with threshold := t1 } c = true := by
  unfold FuzzyRule.rmatches at *
  simp only [Bool.and_eq_true] at hm ⊢
  obtain ⟨h1, h2⟩ := hm
  constructor
  · cases hcp : r.command_pattern with
    | none => simp
    | some p =>
      rw [hcp] at h1
      exact fuzzy_matches_antitone score r t1 t2 (le_of_lt hlt) c.script p h1
  · cases hop : r.output_pattern with
    | none => simp
    | some p =>
      rw [hop] at h2
      exact fuzzy_matches_antitone score r t1 t2 (le_of_lt hlt) c.output p h2

/-- A concrete scorer assigning score 30 to every pair. -/
def wScore : String → String → Option Int := fun _ _ => some 30

/-- A concrete fuzzy rule with a script target. -/
def wFuzzy : FuzzyRule :=
  { name := "w", command_pattern := some "git status", output_pattern := none,
    replacement := "git status", threshold := 20, priority := 1000 }

/-- A mistyped command for the fuzzy witness. -/
def wFuzzyCommand : Command := { script := "git statsu", output := "", exit_code := 1 }

/-- Witness for C9: with score 30, the rule matches at threshold 25 and
hence also at threshold 10. -/
theorem fuzzy_threshold_antitone_witness :
    (10 : Int) < 25 ∧
    FuzzyRule.rmatches wScore { wFuzzy with threshold := 25 } wFuzzyCommand = true ∧
    FuzzyRule.rmatches wScore { wFuzzy with threshold := 10 } wFuzzyCommand = true :=
  ⟨by decide, by decide,
    fuzzy_threshold_antitone wScore wFuzzy wFuzzyCommand 10 25 (by decide) (by decide)⟩

/-- The construction chain for a regex rule as performed by the
builder's callers: apply match_command_regex and match_output_regex for
each supplied pattern string (either can fail on an invalid pattern),
install the replacement function when supplied, then build. -/
def buildRegexRuleFrom (compile : String → Option RegexM) (nm : String)
    (cmdPat outPat : Option String)
    (repl : Option (String → List (Option String) → List String))
    (prio : Int) : Except String RegexRule :=
  let b0 : RegexRuleBuilder := { name := nm, priority := prio }
  match (match cmdPat with
         | none => Except.ok b0
         | some p => b0.match_command_regex compile p) with
  | .error e => .error e
  | .ok b1 =>
    match (match outPat with
           | none => Except.ok b1
           | some p => b1.match_output_regex compile p) with
    | .error e => .error e
    | .ok b2 =>
      (match repl with
       | none => b2
       | some f => b2.replace_with f).build

/-- C7: constructing a regex rule fails exactly when no pattern string
was supplied, or no replacement function was supplied, or a supplied
pattern string fails to compile (is not a syntactically valid regular
expression); constructing a fuzzy rule fails exactly when neither
target is set or the replacement string is unset. -/
theorem builder_validation (compile : String → Option RegexM) (nm : String)
    (cmdPat outPat : Option String)
    (repl : Option (String → List (Option String) → List String)) (prio : Int)
    (fb : FuzzyRuleBuilder) :
    ((buildRegexRuleFrom compile nm cmdPat outPat repl prio).isOk = false ↔
      (cmdPat = none ∧ outPat = none) ∨ repl = none ∨
        (∃ p, cmdPat = some p ∧ compile p = none) ∨
        (∃ p, outPat = some p ∧ compile p = none)) ∧
    ((FuzzyRuleBuilder.build fb).isOk = false ↔
      (fb.command_pattern = none ∧ fb.output_pattern = none) ∨ fb.replacement = none) := by
  constructor
  · cases cmdPat with
    | none =>
      cases outPat with
      | none =>
        cases repl <;>
          simp [buildRegexRuleFrom, RegexRuleBuilder.build, RegexRuleBuilder.replace_with,
            Except.isOk, Except.toBool]
      | some q =>
        cases hq : compile q with
        | none =>
          simp [buildRegexRuleFrom, RegexRuleBuilder.match_output_regex, hq, Except.isOk,
            Except.toBool]
        | some rx =>
          cases repl with
          | none =>
            simp [buildRegexRuleFrom, RegexRuleBuilder.match_output_regex, hq,
              RegexRuleBuilder.build, Except.isOk, Except.toBool]
          | some f =>
            simp [buildRegexRuleFrom, RegexRuleBuilder.match_output_regex, hq,
              RegexRuleBuilder.build, RegexRuleBuilder.replace_with, Except.isOk,
              Except.toBool]
    | some p0 =>
      cases hp : compile p0 with
      | none =>
        simp [buildRegexRuleFrom, RegexRuleBuilder.match_command_regex, hp, Except.isOk,
          Except.toBool]
      | some rx =>
        cases outPat with
        | none =>
          cases repl with
          | none =>
            simp [buildRegexRuleFrom, RegexRuleBuilder.match_command_regex, hp,
              RegexRuleBuilder.build, Except.isOk, Except.toBool]
          | some f =>
            simp [buildRegexRuleFrom, RegexRuleBuilder.match_command_regex, hp,
              RegexRuleBuilder.build, RegexRuleBuilder.replace_with, Except.isOk,
              Except.toBool]
        | some q =>
          cases hq : compile q with
          | none =>
            simp [buildRegexRuleFrom, RegexRuleBuilder.match_command_regex,
              RegexRuleBuilder.match_output_regex, hp, hq, Except.isOk, Except.toBool]
          | some rx2 =>
            cases repl with
            | none =>
              simp [buildRegexRuleFrom, RegexRuleBuilder.match_command_regex,
                RegexRuleBuilder.match_output_regex, hp, hq, RegexRuleBuilder.build,
                Except.isOk, Except.toBool]
            | some f =>
              simp [buildRegexRuleFrom, RegexRuleBuilder.match_command_regex,
                RegexRuleBuilder.match_output_regex, hp, hq, RegexRuleBuilder.build,
                RegexRuleBuilder.replace_with, Except.isOk, Except.toBool]
  · unfold FuzzyRuleBuilder.build
    by_cases h : (fb.command_pattern.isNone && fb.output_pattern.isNone) = true
    · rw [if_pos h]
      simp only [Bool.and_eq_true, Option.isNone_iff_eq_none] at h
      simp [Except.isOk, Except.toBool, h]
    · rw [if_neg h]
      simp only [Bool.and_eq_true, Option.isNone_iff_eq_none, not_and_or] at h
      cases hr : fb.replacement with
      | none => simp [Except.isOk, Except.toBool]
      | some repl =>
        simp only [Except.isOk, Except.toBool]
        constructor
        · intro hfalse
          exact absurd hfalse (by simp)
        · intro hdisj
          rcases hdisj with ⟨h1, h2⟩ | h2
          · rcases h with h | h
            · exact absurd h1 h
            · exact absurd h2 h
          · exact absurd h2 (by simp)
